import Mathlib

/-!
Shallow embedding of the ledger core of `node_server.py`.

Python `Block` objects are modelled as records whose `hash` attribute may be
absent (`Option String`): the constructor never sets it, sealing assigns it.
The SHA-256 primitive is abstracted as a parameter `sha : String → String`;
the JSON serialisation layer (`json.dumps(self.__dict__, sort_keys=True)`)
is modelled concretely by `jsonOfBlock`, including the fact that the `hash`
key is serialised whenever the attribute is present. Transactions are opaque
payloads, modelled as strings. Python floats (`time.time()`) are modelled as
naturals supplied by the caller. Operations that can raise (IndexError,
AttributeError, the explicit `raise Exception` in `create_chain_from_dump`,
and a diverging proof-of-work search, which is given explicit fuel) return
`Option`; `none` means the Python call does not return normally, so the
caller's state is left unchanged.
-/

namespace NodeServer

/-- Source `Block.__init__`: the five constructor fields plus the `hash` attribute,
which is absent (`none`) until sealing assigns it. -/
structure Block where
  index : Nat
  transactions : List String
  timestamp : Nat
  previous_hash : String
  nonce : Nat
  hash : Option String
deriving DecidableEq

/-- The string of `d` zero characters, Python `'0' * difficulty`. -/
def zeros (d : Nat) : String := String.mk (List.replicate d '0')

/-- Python `s.startswith('0' * d)`: the first `d` characters of `s` are all
the zero character. -/
def startsWithZeros (d : Nat) (s : String) : Bool :=
  (zeros d).data.isPrefixOf s.data

/-- JSON serialisation of the transactions list (opaque string payloads). -/
def txsJson (l : List String) : String :=
  "[" ++ String.intercalate ", " (l.map (fun s => "\"" ++ s ++ "\"")) ++ "]"

/-- Source `json.dumps(self.__dict__, sort_keys=True)`: the keys present in the
object's dict, in sorted order (hash, index, nonce, previous_hash,
timestamp, transactions); the `hash` key appears exactly when the attribute
is present. -/
def jsonOfBlock (b : Block) : String :=
  "\x7b"
    ++ (match b.hash with
        | some h => "\"hash\": \"" ++ h ++ "\", "
        | none => "")
    ++ "\"index\": " ++ toString b.index
    ++ ", \"nonce\": " ++ toString b.nonce
    ++ ", \"previous_hash\": \"" ++ b.previous_hash ++ "\""
    ++ ", \"timestamp\": " ++ toString b.timestamp
    ++ ", \"transactions\": " ++ txsJson b.transactions
    ++ "\x7d"

/-- Source `Block.compute_hash`: SHA-256 hexdigest (abstracted as `sha`) of the
JSON dump of every attribute currently present on the object. -/
def computeHash (sha : String → String) (b : Block) : String :=
  sha (jsonOfBlock b)

/-- Source `Blockchain.difficulty` class attribute. -/
def difficulty : Nat := 4

/-- Source `Blockchain.is_valid_proof`: the claimed hash starts with the difficulty
zero-run and equals the recomputed digest of the block as it currently is. -/
def isValidProof (sha : String → String) (d : Nat) (b : Block) (block_hash : String) : Bool :=
  startsWithZeros d block_hash && block_hash == computeHash sha b

/-- Source `Blockchain.__init__`: pending pool and chain. -/
structure Blockchain where
  unconfirmed_transactions : List String
  chain : List Block
deriving DecidableEq

/-- Source `Blockchain.add_block`: reads `self.last_block.hash` (raises when the
chain is empty or the tip is unsealed, modelled as `none`); fails returning
`false` with the chain unchanged when the tip hash differs from
`block.previous_hash` or `is_valid_proof` rejects; otherwise assigns
`block.hash = proof` and appends. -/
def addBlock (sha : String → String) (d : Nat) (bc : Blockchain) (b : Block)
    (proof : String) : Option (Blockchain × Bool) :=
  match bc.chain.getLast? with
  | none => none
  | some tip =>
    match tip.hash with
    | none => none
    | some previous_hash =>
      if previous_hash ≠ b.previous_hash then some (bc, false)
      else if ¬ isValidProof sha d b proof then some (bc, false)
      else some ({ bc with chain := bc.chain ++ [{ b with hash := some proof }] }, true)

/-- The nonce search loop of `proof_of_work`: starting from nonce `n`, try
successive nonces until the digest starts with the zero-run; `fuel` bounds
the number of attempts (the Python loop is unbounded). -/
def powSearch (sha : String → String) (d : Nat) (b : Block) : Nat → Nat → Option Nat
  | 0, _ => none
  | fuel + 1, n =>
    if startsWithZeros d (computeHash sha { b with nonce := n }) then some n
    else powSearch sha d b fuel (n + 1)

/-- Source `Blockchain.proof_of_work`: sets `block.nonce = 0`, increments until the
digest satisfies the difficulty predicate, and returns the digest. The block
is mutated in place; the returned pair is (block as it is after the search,
digest). -/
def proofOfWork (sha : String → String) (d : Nat) (fuel : Nat) (b : Block) :
    Option (Block × String) :=
  (powSearch sha d b fuel 0).map
    (fun n => ({ b with nonce := n }, computeHash sha { b with nonce := n }))

/-- Source `Blockchain.mine`: returns `false` on an empty pool; otherwise builds the
candidate from the pending pool and the tip, runs `proof_of_work`, calls
`add_block` (its result is read into a local and ignored), unconditionally
clears the pool and returns `true`. -/
def mine (sha : String → String) (d : Nat) (fuel : Nat) (now : Nat) (bc : Blockchain) :
    Option (Blockchain × Bool) :=
  if bc.unconfirmed_transactions = [] then some (bc, false)
  else
    match bc.chain.getLast? with
    | none => none
    | some last_block =>
      match last_block.hash with
      | none => none
      | some lastHash =>
        let new_block : Block :=
          { index := last_block.index + 1
            transactions := bc.unconfirmed_transactions
            timestamp := now
            previous_hash := lastHash
            nonce := 0
            hash := none }
        match proofOfWork sha d fuel new_block with
        | none => none
        | some (mined, proof) =>
          match addBlock sha d bc mined proof with
          | none => none
          | some (bc', _added) =>
            some ({ bc' with unconfirmed_transactions := [] }, true)

/-- The loop of `Blockchain.check_chain_validity`, with the running
`previous_hash` accumulator. For each block it reads `block.hash` (raises if
absent), `delattr`s the hash, validates the stripped block with
`is_valid_proof` against the running previous hash; on failure it stops with
the failing block left stripped; on success it restores the hash and
continues. Returns (verdict, the list as the loop leaves it). -/
def checkChainValidityMut (sha : String → String) (d : Nat) :
    String → List Block → Option (Bool × List Block)
  | _, [] => some (true, [])
  | previous_hash, b :: rest =>
    match b.hash with
    | none => none
    | some block_hash =>
      let stripped : Block := { b with hash := none }
      if ¬ isValidProof sha d stripped block_hash ∨ previous_hash ≠ b.previous_hash then
        some (false, stripped :: rest)
      else
        (checkChainValidityMut sha d block_hash rest).map
          (fun p => (p.1, { stripped with hash := some block_hash } :: p.2))

/-- Source `Blockchain.check_chain_validity`: the verdict of the loop, started with
`previous_hash = "0"`. -/
def checkChainValidity (sha : String → String) (d : Nat) (c : List Block) : Option Bool :=
  (checkChainValidityMut sha d "0" c).map Prod.fst

/-- A block record of a transmitted chain dump: all six wire fields,
including the transmitted hash. -/
structure DumpBlock where
  index : Nat
  transactions : List String
  timestamp : Nat
  previous_hash : String
  nonce : Nat
  hash : String
deriving DecidableEq

/-- The `Block(...)` reconstruction in `create_chain_from_dump` and
`/add_block`: five constructor fields, no `hash` attribute. -/
def dumpToBlock (b : DumpBlock) : Block :=
  { index := b.index
    transactions := b.transactions
    timestamp := b.timestamp
    previous_hash := b.previous_hash
    nonce := b.nonce
    hash := none }

/-- One fetched `/chain` response in `consensus`: the peer-reported `length`
field and the transmitted chain, which after `response.json()` is a list of
plain JSON dicts (one per serialised `block.__dict__`), not `Block`
objects. -/
structure PeerResponse where
  length : Nat
  chain : List DumpBlock
deriving DecidableEq

/-- Source `check_chain_validity` as `consensus` actually invokes it: on the
parsed JSON list. The loop's first action for each element is the attribute
access `block.hash` (and then `delattr(block, "hash")`), but a dict exposes
its keys by subscript, not as attributes, so the first element of any
non-empty list raises `AttributeError` (modelled as `none`) whatever it
holds; an empty list never enters the loop and yields the initial `True`. -/
def checkChainValidityOnJson : List DumpBlock → Option Bool
  | [] => some true
  | _ :: _ => none

/-- The peer loop of `consensus`: `current_len` starts at the local chain
length; a response whose reported `length` exceeds `current_len` has its
transmitted chain validated (short-circuit `and`), and on a `True` verdict
it becomes `longest_chain` and `current_len` becomes the reported length; a
raised exception (`none`) aborts the whole run. -/
def consensusLoop :
    Nat → Option (List DumpBlock) → List PeerResponse → Option (Option (List DumpBlock))
  | _, longest_chain, [] => some longest_chain
  | current_len, longest_chain, r :: rest =>
    if current_len < r.length then
      match checkChainValidityOnJson r.chain with
      | none => none
      | some true => consensusLoop r.length (some r.chain) rest
      | some false => consensusLoop current_len longest_chain rest
    else consensusLoop current_len longest_chain rest

/-- Source `consensus`: runs the peer loop and, when `longest_chain` is
truthy (a non-empty list; `None` and `[]` are falsy in Python), assigns it —
the raw JSON dict list, not a `Blockchain` — to the global `blockchain`
(`Sum.inr`); otherwise the local chain is kept (`Sum.inl`). `none` is a
raised exception. -/
def consensus (localChain : List Block) (responses : List PeerResponse) :
    Option (List Block ⊕ List DumpBlock) :=
  match consensusLoop localChain.length none responses with
  | none => none
  | some none => some (Sum.inl localChain)
  | some (some c) => if c.isEmpty then some (Sum.inl localChain) else some (Sum.inr c)

/-- The global `blockchain` observed after a `consensus` call: on a raised
exception the replacement assignment is never reached, so the local chain
is unchanged. -/
def consensusChain (localChain : List Block) (responses : List PeerResponse) :
    List Block ⊕ List DumpBlock :=
  (consensus localChain responses).getD (Sum.inl localChain)

/-- The genesis block as constructed, before its hash is assigned:
`Block(0, [], 0, "0")`. -/
def genesisRaw : Block :=
  { index := 0, transactions := [], timestamp := 0, previous_hash := "0"
    nonce := 0, hash := none }

/-- Source `create_genesis_block`: the genesis block sealed with its own locally
computed digest. -/
def genesisBlock (sha : String → String) : Block :=
  { genesisRaw with hash := some (computeHash sha genesisRaw) }

/-- A fresh `Blockchain()` after `create_genesis_block()`. -/
def freshBlockchain (sha : String → String) : Blockchain :=
  { unconfirmed_transactions := [], chain := [genesisBlock sha] }

/-- The loop of `create_chain_from_dump` over the dump entries after the
skipped first one: each is reconstructed and passed to `add_block`; a
rejected block raises (`The chain dump is tampered`), modelled as `none`. -/
def dumpFold (sha : String → String) (d : Nat) :
    Blockchain → List DumpBlock → Option Blockchain
  | bc, [] => some bc
  | bc, b :: rest =>
    match addBlock sha d bc (dumpToBlock b) b.hash with
    | none => none
    | some (bc', added) =>
      if added then dumpFold sha d bc' rest else none

/-- Source `create_chain_from_dump`: builds a fresh blockchain with a locally
generated genesis, skips the dump's first entry, and folds `add_block` over
the rest; any rejection makes the whole reconstruction raise. -/
def createChainFromDump (sha : String → String) (d : Nat) (dump : List DumpBlock) :
    Option Blockchain :=
  dumpFold sha d (freshBlockchain sha) (dump.drop 1)

/-- The global blockchain after `register_with_existing_node` processes a
chain dump: the assignment `blockchain = create_chain_from_dump(chain_dump)`
is reached only when the reconstruction returns; a raised exception leaves
the global untouched. -/
def registerSync (sha : String → String) (d : Nat) (localBC : Blockchain)
    (dump : List DumpBlock) : Blockchain :=
  (createChainFromDump sha d dump).getD localBC

/-- A constant digest function under which every digest satisfies the
difficulty-4 predicate: used to build concrete sealed chains. -/
def shaZ : String → String := fun _ => "0000"

/-- A constant digest function under which no digest has a zero in front:
used to exhibit failing validations concretely. -/
def shaA : String → String := fun _ => "xyz"

/-- The identity taken as the digest primitive: the digest is the JSON dump
itself, so structural dependence of the serialisation is visible in the
digest. -/
def shaId : String → String := fun s => s

end NodeServer

namespace NodeServer

/-! ### Helper lemmas -/

/-- Restoring a deleted hash attribute with its old value recovers the
original block. -/
theorem reseal_eq (b : Block) (h : String) (hb : b.hash = some h) :
    ({ { b with hash := none } with hash := some h } : Block) = b := by
  cases b
  cases hb
  rfl

/-- Any nonce the search loop returns makes the digest satisfy the
difficulty predicate. -/
theorem powSearch_found (sha : String → String) (d : Nat) (b : Block) (fuel : Nat) :
    ∀ n m, powSearch sha d b fuel n = some m →
      startsWithZeros d (computeHash sha { b with nonce := m }) = true := by
  induction fuel with
  | zero => intro n m h; simp [powSearch] at h
  | succ k ih =>
    intro n m h
    simp only [powSearch] at h
    split at h
    · cases h
      assumption
    · exact ih (n + 1) m h

/-- What a returning `proof_of_work` run guarantees: the block is the input
with its nonce overwritten by the found value, and the returned digest is
the digest of that block and satisfies the difficulty predicate. -/
theorem proofOfWork_spec (sha : String → String) (d fuel : Nat) (b b' : Block)
    (dig : String) (h : proofOfWork sha d fuel b = some (b', dig)) :
    b' = { b with nonce := b'.nonce } ∧ dig = computeHash sha b' ∧
      startsWithZeros d dig = true := by
  unfold proofOfWork at h
  cases hs : powSearch sha d b fuel 0 with
  | none => rw [hs] at h; simp at h
  | some n =>
    rw [hs] at h
    simp only [Option.map_some'] at h
    obtain ⟨hb, hd⟩ := Prod.mk.injEq .. ▸ Option.some.inj h
    subst hb
    refine ⟨rfl, hd.symm ▸ rfl, ?_⟩
    rw [← hd]
    exact powSearch_found sha d b fuel 0 n hs

/-- Full characterisation of a returning `add_block` call. -/
theorem addBlock_spec (sha : String → String) (d : Nat) (bc : Blockchain) (b : Block)
    (proof : String) (bc2 : Blockchain) (ok : Bool)
    (h : addBlock sha d bc b proof = some (bc2, ok)) :
    (ok = false ∧ bc2 = bc) ∨
    (ok = true ∧ bc2 = { bc with chain := bc.chain ++ [{ b with hash := some proof }] } ∧
      bc.chain ≠ [] ∧
      ∃ tip th, bc.chain.getLast? = some tip ∧ tip.hash = some th ∧
        b.previous_hash = th ∧ isValidProof sha d b proof = true) := by
  unfold addBlock at h
  split at h
  · cases h
  · rename_i tip hl
    split at h
    · cases h
    · rename_i th hh
      split at h
      · obtain ⟨h1, h2⟩ := Prod.mk.injEq .. ▸ Option.some.inj h
        exact Or.inl ⟨h2.symm, h1.symm⟩
      · split at h
        · obtain ⟨h1, h2⟩ := Prod.mk.injEq .. ▸ Option.some.inj h
          exact Or.inl ⟨h2.symm, h1.symm⟩
        · obtain ⟨h1, h2⟩ := Prod.mk.injEq .. ▸ Option.some.inj h
          refine Or.inr ⟨h2.symm, h1.symm, ?_, tip, th, hl, hh, ?_, ?_⟩
          · intro hnil
            rw [hnil] at hl
            cases hl
          · rename_i hne _
            exact (not_ne_iff.mp hne).symm
          · rename_i hval
            exact not_not.mp hval

/-- Frame characterisation of the validity loop: on a passing run every
block's hash is restored, on a failing run exactly the first failing block
is left with its hash attribute deleted. -/
theorem checkChainValidityMut_frame (sha : String → String) (d : Nat) :
    ∀ (c : List Block) (p : String) (r : Bool) (c' : List Block),
      checkChainValidityMut sha d p c = some (r, c') →
      (r = true → c' = c) ∧
      (r = false → ∃ pre b post, c = pre ++ b :: post ∧
        c' = pre ++ { b with hash := none } :: post) := by
  intro c
  induction c with
  | nil =>
    intro p r c' h
    simp only [checkChainValidityMut] at h
    obtain ⟨h1, h2⟩ := Prod.mk.injEq .. ▸ Option.some.inj h
    exact ⟨fun _ => h2.symm, fun hf => by rw [hf] at h1; cases h1⟩
  | cons b rest ih =>
    intro p r c' h
    simp only [checkChainValidityMut] at h
    split at h
    · cases h
    · rename_i bh hb
      split at h
      · obtain ⟨h1, h2⟩ := Prod.mk.injEq .. ▸ Option.some.inj h
        refine ⟨fun ht => ?_, fun _ => ⟨[], b, rest, rfl, h2.symm⟩⟩
        rw [ht] at h1
        cases h1
      · cases hrec : checkChainValidityMut sha d bh rest with
        | none => rw [hrec] at h; cases h
        | some pr =>
          obtain ⟨r2, c2⟩ := pr
          rw [hrec] at h
          simp only [Option.map_some'] at h
          obtain ⟨h1, h2⟩ := Prod.mk.injEq .. ▸ Option.some.inj h
          obtain ⟨hres, hfail⟩ := ih bh r2 c2 hrec
          have hrestore : ({ { b with hash := none } with hash := some bh } : Block) = b :=
            reseal_eq b bh hb
          constructor
          · intro ht
        
            rw [ht] at h1
            rw [← h2, hrestore, hres h1]
          · intro hf
            rw [hf] at h1
            obtain ⟨pre, bb, post, hc, hc2⟩ := hfail h1
            refine ⟨b :: pre, bb, post, by rw [hc]; rfl, ?_⟩
            rw [← h2, hrestore, hc2]
            rfl

/-- Claim C7 (counterexample): `check_chain_validity` on a live one-block
chain whose stored hash fails validation returns `false` and leaves that
block with its hash attribute deleted, so the block does not hold the same
field values after the check as before it. -/
theorem check_chain_validity_mutates_cex :
    checkChainValidityMut shaA 4 "0" [⟨0, [], 0, "0", 0, some "x"⟩] =
      some (false, [⟨0, [], 0, "0", 0, none⟩]) ∧
    ([(⟨0, [], 0, "0", 0, none⟩ : Block)] ≠ [(⟨0, [], 0, "0", 0, some "x"⟩ : Block)]) := by
  decide

/-- Claim C7 (amended): the validity check deletes each block's hash and
restores it only for passing blocks. When the verdict is `true` every block
is restored and the chain after the check equals the chain before it; when
the verdict is `false` the first failing block is left without its hash
field, the blocks before it restored and the blocks after it untouched. -/
theorem check_chain_validity_mutation_frame (sha : String → String) (d : Nat)
    (c : List Block) (r : Bool) (c' : List Block)
    (h : checkChainValidityMut sha d "0" c = some (r, c')) :
    (r = true → c' = c) ∧
    (r = false → ∃ pre b post, c = pre ++ b :: post ∧
      c' = pre ++ { b with hash := none } :: post) :=
  checkChainValidityMut_frame sha d c "0" r c' h

/-- Witness for C7's amended theorem at a concrete failing chain: the first
(failing) block is returned stripped of its hash field. -/
theorem check_chain_validity_mutation_frame_witness :
    checkChainValidityMut shaA 4 "0" [⟨0, [], 0, "0", 0, some "y"⟩] =
      some (false, [⟨0, [], 0, "0", 0, none⟩]) ∧
    (false = false → ∃ pre b post,
      [(⟨0, [], 0, "0", 0, some "y"⟩ : Block)] = pre ++ b :: post ∧
      [(⟨0, [], 0, "0", 0, none⟩ : Block)] = pre ++ { b with hash := none } :: post) :=
  ⟨by decide,
   (check_chain_validity_mutation_frame shaA 4 [⟨0, [], 0, "0", 0, some "y"⟩]
      false [⟨0, [], 0, "0", 0, none⟩] (by decide)).2⟩

/-- Claim C8 (counterexample): `proof_of_work` mutates the candidate: the
search resets the nonce to 0 and leaves the found nonce stored, so a
candidate entering with nonce 5 comes out with nonce 0 under a digest
function that satisfies the difficulty predicate immediately. -/
theorem proof_of_work_mutates_cex :
    proofOfWork shaZ 4 1 ⟨1, [], 0, "p", 5, none⟩ =
      some (⟨1, [], 0, "p", 0, none⟩, "0000") ∧
    ((⟨1, [], 0, "p", 0, none⟩ : Block) ≠ ⟨1, [], 0, "p", 5, none⟩) := by
  decide

/-- Claim C8 (amended): the proof-of-work search does mutate the candidate,
but only its nonce: after the search returns, every field except `nonce`
is unchanged (in particular `hash` is still unassigned) and the nonce holds
the value the search settled on; the digest is the canonical digest at that
nonce. The caller assigns only `hash` afterwards (inside `add_block`). -/
theorem proof_of_work_mutation (sha : String → String) (d fuel : Nat)
    (b b' : Block) (dig : String) (h : proofOfWork sha d fuel b = some (b', dig)) :
    b'.index = b.index ∧ b'.transactions = b.transactions ∧
    b'.timestamp = b.timestamp ∧ b'.previous_hash = b.previous_hash ∧
    b'.hash = b.hash ∧ b' = { b with nonce := b'.nonce } ∧
    dig = computeHash sha { b with nonce := b'.nonce } := by
  obtain ⟨hb, hd, _⟩ := proofOfWork_spec sha d fuel b b' dig h
  rw [hb]
  exact ⟨rfl, rfl, rfl, rfl, rfl, rfl, by rw [← hb]; exact hd⟩

/-- Witness for C8's amended theorem at a concrete input. -/
theorem proof_of_work_mutation_witness :
    proofOfWork shaZ 4 1 ⟨1, [], 0, "p", 7, none⟩ =
      some (⟨1, [], 0, "p", 0, none⟩, "0000") ∧
    (⟨1, [], 0, "p", 0, none⟩ : Block).hash = (⟨1, [], 0, "p", 7, none⟩ : Block).hash ∧
    (⟨1, [], 0, "p", 0, none⟩ : Block) =
      { (⟨1, [], 0, "p", 7, none⟩ : Block) with
          nonce := (⟨1, [], 0, "p", 0, none⟩ : Block).nonce } :=
  ⟨by decide,
   (proof_of_work_mutation shaZ 4 1 ⟨1, [], 0, "p", 7, none⟩
      ⟨1, [], 0, "p", 0, none⟩ "0000" (by decide)).2.2.2.2.1,
   (proof_of_work_mutation shaZ 4 1 ⟨1, [], 0, "p", 7, none⟩
      ⟨1, [], 0, "p", 0, none⟩ "0000" (by decide)).2.2.2.2.2.1⟩

/-- Claim C9: sealing correctness. Whenever the proof-of-work search
returns, the returned digest satisfies the difficulty predicate (its first
`d` characters are the zero character) and equals the canonical digest of
the candidate evaluated at the nonce the search settled on. -/
theorem proof_of_work_sealing (sha : String → String) (d fuel : Nat)
    (b b' : Block) (dig : String) (h : proofOfWork sha d fuel b = some (b', dig)) :
    startsWithZeros d dig = true ∧ dig = computeHash sha { b with nonce := b'.nonce } := by
  obtain ⟨hb, hd, hz⟩ := proofOfWork_spec sha d fuel b b' dig h
  exact ⟨hz, by rw [← hb]; exact hd⟩

/-- Witness for C9 at a concrete input. -/
theorem proof_of_work_sealing_witness :
    proofOfWork shaZ 4 1 ⟨1, ["t"], 3, "q", 0, none⟩ =
      some (⟨1, ["t"], 3, "q", 0, none⟩, "0000") ∧
    startsWithZeros 4 "0000" = true ∧
    "0000" = computeHash shaZ { (⟨1, ["t"], 3, "q", 0, none⟩ : Block) with
      nonce := (⟨1, ["t"], 3, "q", 0, none⟩ : Block).nonce } :=
  ⟨by decide,
   proof_of_work_sealing shaZ 4 1 ⟨1, ["t"], 3, "q", 0, none⟩
     ⟨1, ["t"], 3, "q", 0, none⟩ "0000" (by decide)⟩

/-- Claim C2 (code bug): `check_chain_validity` validates the genesis block
with `is_valid_proof`, which demands the difficulty zero-run on its digest,
but `create_genesis_block` seals genesis without any proof-of-work search.
Whenever the genesis digest lacks the required run of zeros (as the real
SHA-256 digest 6dbf23... of the genesis JSON does for difficulty 4), even
the freshly created one-block chain (the N = 1 round-trip chain) is judged
invalid. -/
theorem genesis_fails_validation (sha : String → String)
    (h : startsWithZeros difficulty (computeHash sha genesisRaw) = false) :
    checkChainValidity sha difficulty [genesisBlock sha] = some false := by
  unfold checkChainValidity checkChainValidityMut genesisBlock
  simp [isValidProof, h]

/-- Witness for C2's theorem under a concrete digest function whose genesis
digest has no zero in front. -/
theorem genesis_fails_validation_witness :
    startsWithZeros difficulty (computeHash shaA genesisRaw) = false ∧
    checkChainValidity shaA difficulty [genesisBlock shaA] = some false :=
  ⟨by decide, genesis_fails_validation shaA (by decide)⟩

/-- Claim C3: append gating. With a non-empty chain whose tip is sealed and
an unsealed candidate, `add_block` returns `false` with the chain unchanged
when the claimed hash lacks the difficulty zero-run, when it differs from
the recomputed digest of the block, or when the block's `previous_hash`
differs from the tip's hash; otherwise it assigns the claimed hash to the
block, appends it, and the tip advances to the appended block. -/
theorem addBlock_gating (sha : String → String) (d : Nat) (bc : Blockchain)
    (b : Block) (proof : String) (tip : Block) (th : String)
    (htip : bc.chain.getLast? = some tip) (hth : tip.hash = some th)
    (_hb : b.hash = none) :
    ((b.previous_hash ≠ th ∨ startsWithZeros d proof = false ∨
        proof ≠ computeHash sha b) →
      addBlock sha d bc b proof = some (bc, false)) ∧
    (b.previous_hash = th → startsWithZeros d proof = true →
      proof = computeHash sha b →
      addBlock sha d bc b proof =
        some ({ bc with chain := bc.chain ++ [{ b with hash := some proof }] }, true) ∧
      ({ bc with chain := bc.chain ++ [{ b with hash := some proof }] } :
          Blockchain).chain.getLast? = some { b with hash := some proof }) := by
  constructor
  · intro hcase
    unfold addBlock
    simp only [htip, hth]
    rcases hcase with hpv | hz | hd
    · rw [if_pos (fun he => hpv he.symm)]
    · have hiv : isValidProof sha d b proof = false := by
        simp [isValidProof, hz]
      by_cases hpv : th = b.previous_hash
      · rw [if_neg (not_not_intro hpv), if_pos (by simp [hiv])]
      · rw [if_pos hpv]
    · have hiv : isValidProof sha d b proof = false := by
        simp [isValidProof]
        intro _
        exact hd
      by_cases hpv : th = b.previous_hash
      · rw [if_neg (not_not_intro hpv), if_pos (by simp [hiv])]
      · rw [if_pos hpv]
  · intro hpv hz hd
    subst hd
    have hiv : isValidProof sha d b (computeHash sha b) = true := by
      simp [isValidProof, hz]
    constructor
    · unfold addBlock
      simp only [htip, hth]
      rw [if_neg (not_not_intro hpv.symm), if_neg (by simp [hiv])]
    · exact List.getLast?_concat _

/-- Witness for C3 on the success path: a linked, correctly sealed candidate
is appended and becomes the new tip. -/
theorem addBlock_gating_witness :
    ((⟨1, [], 0, "0000", 0, none⟩ : Block).previous_hash = "0000") ∧
    startsWithZeros 4 "0000" = true ∧
    ("0000" = computeHash shaZ ⟨1, [], 0, "0000", 0, none⟩) ∧
    (addBlock shaZ 4 ⟨[], [⟨0, [], 0, "0", 0, some "0000"⟩]⟩
        ⟨1, [], 0, "0000", 0, none⟩ "0000" =
      some ({ (⟨[], [⟨0, [], 0, "0", 0, some "0000"⟩]⟩ : Blockchain) with
          chain := [⟨0, [], 0, "0", 0, some "0000"⟩] ++
            [{ (⟨1, [], 0, "0000", 0, none⟩ : Block) with hash := some "0000" }] },
        true)) :=
  ⟨rfl, by decide, by decide,
   ((addBlock_gating shaZ 4 ⟨[], [⟨0, [], 0, "0", 0, some "0000"⟩]⟩
      ⟨1, [], 0, "0000", 0, none⟩ "0000" ⟨0, [], 0, "0", 0, some "0000"⟩ "0000"
      rfl rfl rfl).2 rfl (by decide) (by decide)).1⟩

/-- Claim C5 (counterexample): `compute_hash` serialises `self.__dict__`, so
the `hash` attribute enters the digest input whenever it is present. Two
blocks agreeing on index, transactions, timestamp, previous_hash and nonce
get different digests under the identity digest primitive when one of them
carries a hash field. -/
theorem compute_hash_uses_hash_field_cex :
    ((⟨0, [], 0, "0", 0, none⟩ : Block).index = (⟨0, [], 0, "0", 0, some "x"⟩ : Block).index ∧
     (⟨0, [], 0, "0", 0, none⟩ : Block).transactions = (⟨0, [], 0, "0", 0, some "x"⟩ : Block).transactions ∧
     (⟨0, [], 0, "0", 0, none⟩ : Block).timestamp = (⟨0, [], 0, "0", 0, some "x"⟩ : Block).timestamp ∧
     (⟨0, [], 0, "0", 0, none⟩ : Block).previous_hash = (⟨0, [], 0, "0", 0, some "x"⟩ : Block).previous_hash ∧
     (⟨0, [], 0, "0", 0, none⟩ : Block).nonce = (⟨0, [], 0, "0", 0, some "x"⟩ : Block).nonce) ∧
    computeHash shaId (⟨0, [], 0, "0", 0, none⟩ : Block) ≠
      computeHash shaId (⟨0, [], 0, "0", 0, some "x"⟩ : Block) := by
  decide

/-- Claim C5 (amended): the digest input is the JSON dump of every attribute
present. For blocks without a hash attribute — which is the case at every
call site of `compute_hash` in the program — the digest is determined by
exactly the five fields index, transactions, timestamp, previous_hash and
nonce; when a hash field is present its value is serialised into the digest
input as well, so the digest can differ (see the counterexample). -/
theorem compute_hash_five_field_determinism (sha : String → String) (b1 b2 : Block)
    (h1 : b1.hash = none) (h2 : b2.hash = none)
    (hi : b1.index = b2.index) (ht : b1.transactions = b2.transactions)
    (hts : b1.timestamp = b2.timestamp) (hp : b1.previous_hash = b2.previous_hash)
    (hn : b1.nonce = b2.nonce) :
    computeHash sha b1 = computeHash sha b2 := by
  cases b1
  cases b2
  simp only at h1 h2 hi ht hts hp hn
  subst h1 h2 hi ht hts hp hn
  rfl

/-- Witness for C5's amended theorem: two separately constructed unsealed
blocks with the same five fields get the same digest. -/
theorem compute_hash_five_field_determinism_witness :
    computeHash shaId ⟨1, ["t"], 2, "p", 3, none⟩ =
      computeHash shaId ⟨1, ["t"], 2, "p", 3, none⟩ :=
  compute_hash_five_field_determinism shaId ⟨1, ["t"], 2, "p", 3, none⟩
    ⟨1, ["t"], 2, "p", 3, none⟩ rfl rfl rfl rfl rfl rfl rfl


/-- Claim C4: pool/mine atomicity. On an empty pending pool `mine` returns
failure and leaves the whole ledger (chain and pool) unchanged. On a
non-empty pool, whenever `mine` returns, it has appended exactly one block
whose transactions are exactly the pending records present at trigger time,
the pool is empty immediately afterwards, the clear happens together with a
successful append, and the returned value `true` reflects that the block
was appended. -/
theorem mine_atomic (sha : String → String) (d fuel now : Nat) (bc : Blockchain)
    (tip : Block) (th : String)
    (htip : bc.chain.getLast? = some tip) (hth : tip.hash = some th) :
    (bc.unconfirmed_transactions = [] → mine sha d fuel now bc = some (bc, false)) ∧
    (∀ out, bc.unconfirmed_transactions ≠ [] → mine sha d fuel now bc = some out →
      out.2 = true ∧ out.1.unconfirmed_transactions = [] ∧
      ∃ n, out.1.chain = bc.chain ++
        [{ index := tip.index + 1, transactions := bc.unconfirmed_transactions,
           timestamp := now, previous_hash := th, nonce := n,
           hash := some (computeHash sha
             { index := tip.index + 1, transactions := bc.unconfirmed_transactions,
               timestamp := now, previous_hash := th, nonce := n, hash := none }) }]) := by
  constructor
  · intro hp
    unfold mine
    rw [if_pos hp]
  · intro out hp hm
    unfold mine at hm
    rw [if_neg hp] at hm
    simp only [htip, hth] at hm
    split at hm
    · cases hm
    · rename_i mined proof hpw
      obtain ⟨hmeq, hdig, hz⟩ := proofOfWork_spec sha d fuel _ mined proof hpw
      have hiv : isValidProof sha d mined proof = true := by
        unfold isValidProof
        rw [hz]
        simp [hdig]
      have hab : addBlock sha d bc mined proof =
          some ({ bc with chain := bc.chain ++ [{ mined with hash := some proof }] }, true) := by
        unfold addBlock
        simp only [htip, hth]
        have hprev : mined.previous_hash = th := by rw [hmeq]
        rw [if_neg (not_not_intro hprev.symm), if_neg (not_not_intro hiv)]
      split at hm
      · rename_i hadd
        rw [hadd] at hab
        cases hab
      · rename_i bc2 added2 hadd
        rw [hadd] at hab
        obtain ⟨h1, _h2⟩ := Prod.mk.injEq .. ▸ Option.some.inj hab
        have hout := Option.some.inj hm
        refine ⟨by rw [← hout], by rw [← hout], mined.nonce, ?_⟩
        rw [← hout]
        show bc2.chain = _
        rw [h1]
        show bc.chain ++ [{ mined with hash := some proof }] = bc.chain ++ _
        rw [hmeq, hdig]
        rw [hmeq]

/-- Witness for C4 at a concrete successful mining run: the single pending
record is sealed into the appended block and the pool is empty after. -/
theorem mine_atomic_witness :
    ((["a"] : List String) ≠ []) ∧
    ((⟨[], [⟨0, [], 0, "0", 0, some "0000"⟩,
        ⟨1, ["a"], 5, "0000", 0, some "0000"⟩]⟩, true) : Blockchain × Bool).2 = true ∧
    ((⟨[], [⟨0, [], 0, "0", 0, some "0000"⟩,
        ⟨1, ["a"], 5, "0000", 0, some "0000"⟩]⟩, true) : Blockchain × Bool).1.unconfirmed_transactions = [] ∧
    ∃ n, ((⟨[], [⟨0, [], 0, "0", 0, some "0000"⟩,
        ⟨1, ["a"], 5, "0000", 0, some "0000"⟩]⟩, true) : Blockchain × Bool).1.chain =
      (⟨["a"], [⟨0, [], 0, "0", 0, some "0000"⟩]⟩ : Blockchain).chain ++
        [{ index := (⟨0, [], 0, "0", 0, some "0000"⟩ : Block).index + 1,
           transactions := (⟨["a"], [⟨0, [], 0, "0", 0, some "0000"⟩]⟩ : Blockchain).unconfirmed_transactions,
           timestamp := 5, previous_hash := "0000", nonce := n,
           hash := some (computeHash shaZ
             { index := (⟨0, [], 0, "0", 0, some "0000"⟩ : Block).index + 1,
               transactions := (⟨["a"], [⟨0, [], 0, "0", 0, some "0000"⟩]⟩ : Blockchain).unconfirmed_transactions,
               timestamp := 5, previous_hash := "0000", nonce := n, hash := none }) }] :=
  ⟨by decide,
   (mine_atomic shaZ 4 1 5 ⟨["a"], [⟨0, [], 0, "0", 0, some "0000"⟩]⟩
      ⟨0, [], 0, "0", 0, some "0000"⟩ "0000" rfl rfl).2
     (⟨[], [⟨0, [], 0, "0", 0, some "0000"⟩, ⟨1, ["a"], 5, "0000", 0, some "0000"⟩]⟩, true)
     (by decide) (by decide)⟩


/-- Invariant of the `consensus` peer loop: only the empty JSON chain ever
passes validation (a non-empty one raises), so a returning loop's
`longest_chain` is still `None` or holds the empty list. -/
theorem consensusLoop_inv :
    ∀ (rs : List PeerResponse) (curLen : Nat) (acc : Option (List DumpBlock)),
      (acc = none ∨ acc = some []) →
      ∀ res, consensusLoop curLen acc rs = some res → (res = none ∨ res = some []) := by
  intro rs
  induction rs with
  | nil =>
    intro curLen acc hacc res h
    simp only [consensusLoop] at h
    rw [← Option.some.inj h]
    exact hacc
  | cons r rest ih =>
    intro curLen acc hacc res h
    simp only [consensusLoop] at h
    split at h
    · cases hc : r.chain with
      | nil =>
        rw [hc] at h
        simp only [checkChainValidityOnJson] at h
        exact ih r.length (some []) (Or.inr rfl) res h
      | cons b t =>
        rw [hc] at h
        simp only [checkChainValidityOnJson] at h
        exact Option.noConfusion h
    · exact ih curLen acc hacc res h

/-- Claim C1: the consensus resolution never adopts a peer chain that is
invalid or whose length is less than or equal to the local chain length:
after `consensus` runs, the local chain is unchanged — the first disjunct
of the claim, and in fact the only reachable outcome, for every set of
fetched peer responses, regardless of peer count or order of evaluation.
The replacement branch is unreachable in the source: validating any
non-empty transmitted chain raises `AttributeError` (the JSON dicts carry
no `hash` attribute), which aborts the run with the global untouched, and
an empty candidate chain is falsy, so `blockchain = longest_chain` never
executes. -/
theorem consensus_monotonicity (localChain : List Block) (rs : List PeerResponse) :
    consensusChain localChain rs = Sum.inl localChain := by
  unfold consensusChain consensus
  cases hl : consensusLoop localChain.length none rs with
  | none => rfl
  | some acc =>
    rcases consensusLoop_inv rs localChain.length none (Or.inl rfl) acc hl with h1 | h1
    · rw [h1]
      rfl
    · rw [h1]
      rfl


/-- The reconstruction loop distributes over list append: processing
`l1 ++ l2` is processing `l1` and, only if that returned, processing `l2`
from the resulting state. -/
theorem dumpFold_append (sha : String → String) (d : Nat) :
    ∀ (l1 l2 : List DumpBlock) (bc : Blockchain),
      dumpFold sha d bc (l1 ++ l2) =
        (dumpFold sha d bc l1).bind (fun bc2 => dumpFold sha d bc2 l2) := by
  intro l1
  induction l1 with
  | nil => intro l2 bc; simp [dumpFold]
  | cons b rest ih =>
    intro l2 bc
    simp only [List.cons_append, dumpFold]
    cases addBlock sha d bc (dumpToBlock b) b.hash with
    | none => rfl
    | some pr =>
      obtain ⟨bc2, added⟩ := pr
      cases added
      · rfl
      · exact ih l2 bc2

/-- A returning reconstruction loop never changes the first block of the
chain it started from. -/
theorem dumpFold_head (sha : String → String) (d : Nat) :
    ∀ (l : List DumpBlock) (bc bc2 : Blockchain),
      dumpFold sha d bc l = some bc2 → bc2.chain.head? = bc.chain.head? := by
  intro l
  induction l with
  | nil =>
    intro bc bc2 h
    rw [Option.some.inj h]
  | cons b rest ih =>
    intro bc bc2 h
    simp only [dumpFold] at h
    split at h
    · cases h
    · rename_i bc3 added hadd
      cases added
      · cases h
      · rcases addBlock_spec sha d bc (dumpToBlock b) b.hash bc3 true hadd with
          ⟨hfalse, _⟩ | ⟨_, hchain, hne, _⟩
        · cases hfalse
        · rw [ih bc3 bc2 h, hchain]
          cases hc : bc.chain with
          | nil => exact absurd hc hne
          | cons a t => rfl

/-- Claim C6: tampered-dump atomicity. If, anywhere during the
reconstruction of a peer-supplied dump, `add_block` rejects a block — even
after an arbitrarily long prefix was reconstructed successfully — the whole
`create_chain_from_dump` call raises, no prefix of the dump is adopted, and
the node's blockchain (chain and pool) is exactly what it was before the
resync attempt. -/
theorem dump_tamper_atomic (sha : String → String) (d : Nat) (localBC : Blockchain)
    (first d0 : DumpBlock) (pre rest : List DumpBlock) (bc1 bc2 : Blockchain)
    (hpre : dumpFold sha d (freshBlockchain sha) pre = some bc1)
    (hfail : addBlock sha d bc1 (dumpToBlock d0) d0.hash = some (bc2, false)) :
    createChainFromDump sha d (first :: (pre ++ d0 :: rest)) = none ∧
    registerSync sha d localBC (first :: (pre ++ d0 :: rest)) = localBC := by
  have hnone : createChainFromDump sha d (first :: (pre ++ d0 :: rest)) = none := by
    show dumpFold sha d (freshBlockchain sha) (pre ++ d0 :: rest) = none
    rw [dumpFold_append, hpre, Option.some_bind]
    simp only [dumpFold]
    rw [hfail]
    rfl
  refine ⟨hnone, ?_⟩
  unfold registerSync
  rw [hnone]
  rfl

/-- Witness for C6: a dump whose second entry does not link to the local
genesis is rejected as a whole and the local ledger is untouched. -/
theorem dump_tamper_atomic_witness :
    dumpFold shaZ difficulty (freshBlockchain shaZ) [] = some (freshBlockchain shaZ) ∧
    addBlock shaZ difficulty (freshBlockchain shaZ)
      (dumpToBlock ⟨1, ["a"], 5, "WRONG", 0, "0000"⟩) "0000" =
      some (freshBlockchain shaZ, false) ∧
    createChainFromDump shaZ difficulty
      [⟨9, [], 9, "junk", 9, "junk"⟩, ⟨1, ["a"], 5, "WRONG", 0, "0000"⟩] = none ∧
    registerSync shaZ difficulty ⟨["p"], [genesisBlock shaZ]⟩
      [⟨9, [], 9, "junk", 9, "junk"⟩, ⟨1, ["a"], 5, "WRONG", 0, "0000"⟩] =
      ⟨["p"], [genesisBlock shaZ]⟩ :=
  ⟨by decide, by decide,
   (dump_tamper_atomic shaZ difficulty ⟨["p"], [genesisBlock shaZ]⟩
      ⟨9, [], 9, "junk", 9, "junk"⟩ ⟨1, ["a"], 5, "WRONG", 0, "0000"⟩ [] []
      (freshBlockchain shaZ) (freshBlockchain shaZ) (by decide) (by decide)).1,
   (dump_tamper_atomic shaZ difficulty ⟨["p"], [genesisBlock shaZ]⟩
      ⟨9, [], 9, "junk", 9, "junk"⟩ ⟨1, ["a"], 5, "WRONG", 0, "0000"⟩ [] []
      (freshBlockchain shaZ) (freshBlockchain shaZ) (by decide) (by decide)).2⟩

/-- Claim C10: the chain-from-dump reconstruction skips the dump's first
element entirely (the result is the same whatever that element holds), the
reconstructed chain always starts with the locally generated genesis block
(index 0, no transactions, timestamp 0, previous hash the sentinel, hash
computed locally), and the dump's second element is adopted only if its
`previous_hash` links to this local genesis digest. -/
theorem dump_local_genesis (sha : String → String) (d : Nat) :
    (∀ (first1 first2 : DumpBlock) (rest : List DumpBlock),
      createChainFromDump sha d (first1 :: rest) =
        createChainFromDump sha d (first2 :: rest)) ∧
    (∀ (dump : List DumpBlock) (bc : Blockchain),
      createChainFromDump sha d dump = some bc →
        bc.chain.head? = some (genesisBlock sha)) ∧
    (∀ (first b1 : DumpBlock) (rest : List DumpBlock) (bc : Blockchain),
      createChainFromDump sha d (first :: b1 :: rest) = some bc →
        b1.previous_hash = computeHash sha genesisRaw) := by
  refine ⟨fun _ _ _ => rfl, ?_, ?_⟩
  · intro dump bc h
    rw [dumpFold_head sha d (dump.drop 1) (freshBlockchain sha) bc h]
    rfl
  · intro first b1 rest bc h
    have h2 : dumpFold sha d (freshBlockchain sha) (b1 :: rest) = some bc := h
    simp only [dumpFold] at h2
    split at h2
    · cases h2
    · rename_i bc3 added hadd
      cases added
      · cases h2
      · rcases addBlock_spec sha d (freshBlockchain sha) (dumpToBlock b1) b1.hash bc3
          true hadd with ⟨hfalse, _⟩ | ⟨_, _, _, tip, th, htip, hth, hpv, _⟩
        · cases hfalse
        · have htipg : tip = genesisBlock sha := Option.some.inj htip.symm
          rw [htipg] at hth
          exact hpv.trans (Option.some.inj hth.symm)

/-- Witness for C10: under a digest function making sealing trivial, a dump
with arbitrary junk in front reconstructs into local genesis followed by
the linked second entry, and its head is the local genesis. -/
theorem dump_local_genesis_witness :
    createChainFromDump shaZ difficulty
      [⟨9, [], 9, "junk", 9, "junk"⟩, ⟨1, ["a"], 5, "0000", 0, "0000"⟩] =
      some ⟨[], [genesisBlock shaZ, ⟨1, ["a"], 5, "0000", 0, some "0000"⟩]⟩ ∧
    ((⟨[], [genesisBlock shaZ, ⟨1, ["a"], 5, "0000", 0, some "0000"⟩]⟩ :
        Blockchain).chain.head? = some (genesisBlock shaZ)) ∧
    ((⟨1, ["a"], 5, "0000", 0, "0000"⟩ : DumpBlock).previous_hash =
      computeHash shaZ genesisRaw) :=
  ⟨by decide,
   (dump_local_genesis shaZ difficulty).2.1
     [⟨9, [], 9, "junk", 9, "junk"⟩, ⟨1, ["a"], 5, "0000", 0, "0000"⟩]
     ⟨[], [genesisBlock shaZ, ⟨1, ["a"], 5, "0000", 0, some "0000"⟩]⟩ (by decide),
   (dump_local_genesis shaZ difficulty).2.2
     ⟨9, [], 9, "junk", 9, "junk"⟩ ⟨1, ["a"], 5, "0000", 0, "0000"⟩ []
     ⟨[], [genesisBlock shaZ, ⟨1, ["a"], 5, "0000", 0, some "0000"⟩]⟩ (by decide)⟩


end NodeServer
